import Mathlib

/-!
A verification development for the Tetris core of `puzzle_game/tetris.py`:
the piece catalog (`TETROMINOES`), the playfield, the active-piece
controller (`move`, `rotate`, `hard_drop`, `lock_piece`, `spawn_piece`,
`get_ghost_y`) and the scoring logic (`clear_lines`).

Python state is embedded as an explicit `Tetris` record; every method
becomes a function from the record to an updated record (plus its return
value where the method returns one).  The two sources of randomness
(`random.shuffle` inside the 7-bag refill) are threaded as an explicit
oracle argument `sh`: the list the bag is refilled with when it is empty.
-/

inductive PieceKind where
  | I
  | O
  | T
  | S
  | Z
  | J
  | L
deriving DecidableEq, Repr, Fintype

def BOARD_WIDTH : Nat := 10

def BOARD_HEIGHT : Nat := 20

/-- The `TETROMINOES` table: for each kind, 4 rotation states, each a list
of `(column, row)` cells inside a 4x4 local frame.  Rotation indices other
than 0..3 never occur in the program (every index is reduced mod 4 or is
the literal 0); they map to the empty list here. -/
def TETROMINOES : PieceKind → Nat → List (Int × Int)
  | .I, 0 => [(0, 1), (1, 1), (2, 1), (3, 1)]
  | .I, 1 => [(2, 0), (2, 1), (2, 2), (2, 3)]
  | .I, 2 => [(0, 2), (1, 2), (2, 2), (3, 2)]
  | .I, 3 => [(1, 0), (1, 1), (1, 2), (1, 3)]
  | .O, 0 => [(1, 0), (2, 0), (1, 1), (2, 1)]
  | .O, 1 => [(1, 0), (2, 0), (1, 1), (2, 1)]
  | .O, 2 => [(1, 0), (2, 0), (1, 1), (2, 1)]
  | .O, 3 => [(1, 0), (2, 0), (1, 1), (2, 1)]
  | .T, 0 => [(1, 0), (0, 1), (1, 1), (2, 1)]
  | .T, 1 => [(1, 0), (1, 1), (2, 1), (1, 2)]
  | .T, 2 => [(0, 1), (1, 1), (2, 1), (1, 2)]
  | .T, 3 => [(1, 0), (0, 1), (1, 1), (1, 2)]
  | .S, 0 => [(1, 0), (2, 0), (0, 1), (1, 1)]
  | .S, 1 => [(1, 0), (1, 1), (2, 1), (2, 2)]
  | .S, 2 => [(1, 1), (2, 1), (0, 2), (1, 2)]
  | .S, 3 => [(0, 0), (0, 1), (1, 1), (1, 2)]
  | .Z, 0 => [(0, 0), (1, 0), (1, 1), (2, 1)]
  | .Z, 1 => [(2, 0), (1, 1), (2, 1), (1, 2)]
  | .Z, 2 => [(0, 1), (1, 1), (1, 2), (2, 2)]
  | .Z, 3 => [(1, 0), (0, 1), (1, 1), (0, 2)]
  | .J, 0 => [(0, 0), (0, 1), (1, 1), (2, 1)]
  | .J, 1 => [(1, 0), (2, 0), (1, 1), (1, 2)]
  | .J, 2 => [(0, 1), (1, 1), (2, 1), (2, 2)]
  | .J, 3 => [(1, 0), (1, 1), (0, 2), (1, 2)]
  | .L, 0 => [(2, 0), (0, 1), (1, 1), (2, 1)]
  | .L, 1 => [(1, 0), (1, 1), (1, 2), (2, 2)]
  | .L, 2 => [(0, 1), (1, 1), (2, 1), (0, 2)]
  | .L, 3 => [(0, 0), (1, 0), (1, 1), (1, 2)]
  | _, _ => []

/-- A playfield row: `BOARD_WIDTH` cells, each empty (`none`) or occupied
by the kind of the locked piece that filled it. -/
abbrev Row := List (Option PieceKind)

abbrev Board := List Row

def emptyRow : Row := List.replicate BOARD_WIDTH none

/-- The full game state of the `Tetris` class (rendering-only fields
excluded). -/
structure Tetris where
  board : Board
  score : Nat
  level : Nat
  lines_cleared : Nat
  game_over : Bool
  paused : Bool
  bag : List PieceKind
  current_piece : List (Int × Int)
  current_type : PieceKind
  current_rotation : Nat
  current_x : Int
  current_y : Int
  next_type : Option PieceKind
deriving DecidableEq, Repr

/-- `Tetris.is_valid_position`: a piece placed with its frame origin at
`(x, y)` is valid iff every cell is inside the horizontal bounds, above
the bottom, and (when on the visible board) lands on an empty cell. -/
def is_valid_position (board : Board) (x y : Int) (piece : List (Int × Int)) : Bool :=
  piece.all fun c =>
    let new_x := x + c.1
    let new_y := y + c.2
    if new_x < 0 ∨ (BOARD_WIDTH : Int) ≤ new_x then false
    else if (BOARD_HEIGHT : Int) ≤ new_y then false
    else if 0 ≤ new_y ∧ ((board.getD new_y.toNat []).getD new_x.toNat none).isSome then false
    else true

/-- `Tetris.get_next_piece_type`: 7-bag randomizer.  When the bag is
empty it is refilled with `random.shuffle(list(TETROMINOES.keys()))`,
modelled by the oracle `sh` (the shuffled list); then the last element is
popped.  `list.pop()` on the refilled 7-element bag never sees an empty
list, so the `getLastD` default is unreachable in the program. -/
def get_next_piece_type (sh : List PieceKind) (g : Tetris) : PieceKind × Tetris :=
  let bag := if g.bag.isEmpty then sh else g.bag
  (bag.getLastD PieceKind.I, { g with bag := bag.dropLast })

/-- `Tetris.spawn_piece`: take the queued next kind (or draw one at game
start), draw the new preview kind, place the piece at rotation 0 with its
frame origin at `(W / 2 - 2, 0)`, and flag game over if that position is
invalid. -/
def spawn_piece (sh : List PieceKind) (g : Tetris) : Tetris :=
  let (ct, g1) :=
    match g.next_type with
    | some t => (t, g)
    | none => get_next_piece_type sh g
  let (nt, g2) := get_next_piece_type sh g1
  let g3 : Tetris :=
    { g2 with
      current_type := ct
      next_type := some nt
      current_rotation := 0
      current_piece := TETROMINOES ct 0
      current_x := (BOARD_WIDTH : Int) / 2 - 2
      current_y := 0 }
  if is_valid_position g3.board g3.current_x g3.current_y g3.current_piece then g3
  else { g3 with game_over := true }

/-- `Tetris.move`: try to translate the current piece by `(dx, dy)`;
commit and return true only if the new position is valid. -/
def move (dx dy : Int) (g : Tetris) : Tetris × Bool :=
  let new_x := g.current_x + dx
  let new_y := g.current_y + dy
  if is_valid_position g.board new_x new_y g.current_piece then
    ({ g with current_x := new_x, current_y := new_y }, true)
  else (g, false)

/-- Wall-kick offsets tried by `Tetris.rotate` after the in-place attempt. -/
def kicks : List (Int × Int) := [(-1, 0), (1, 0), (-2, 0), (2, 0), (0, -1)]

/-- The kick loop of `Tetris.rotate`: try each offset in order, committing
the first one at which the rotated layout is valid. -/
def rotateKicks (g : Tetris) (new_rotation : Nat) (new_piece : List (Int × Int)) :
    List (Int × Int) → Tetris × Bool
  | [] => (g, false)
  | k :: rest =>
    if is_valid_position g.board (g.current_x + k.1) (g.current_y + k.2) new_piece then
      ({ g with
          current_x := g.current_x + k.1
          current_y := g.current_y + k.2
          current_rotation := new_rotation
          current_piece := new_piece }, true)
    else rotateKicks g new_rotation new_piece rest

/-- `Tetris.rotate`: advance to rotation `(r + 1) % 4`; first try the
rotated layout in place, then the wall-kick offsets. -/
def rotate (g : Tetris) : Tetris × Bool :=
  let new_rotation := (g.current_rotation + 1) % 4
  let new_piece := TETROMINOES g.current_type new_rotation
  if is_valid_position g.board g.current_x g.current_y new_piece then
    ({ g with current_rotation := new_rotation, current_piece := new_piece }, true)
  else rotateKicks g new_rotation new_piece kicks

/-- The scoring dictionary `{1: 100, 2: 300, 3: 500, 4: 800}.get(n, 800)`. -/
def pointsTable : Nat → Nat
  | 1 => 100
  | 2 => 300
  | 3 => 500
  | 4 => 800
  | _ => 800

/-- A row is complete iff every cell is occupied:
`all(cell is not None for cell in row)`. -/
def isFullRow (r : Row) : Bool := r.all fun cell => cell.isSome

/-- The indices of the completed rows, scanned top to bottom:
`[y for y in range(BOARD_HEIGHT) if all(cell is not None for cell in board[y])]`.
The board invariantly has exactly `BOARD_HEIGHT` rows. -/
def linesToClear (b : Board) : List Nat :=
  (List.range BOARD_HEIGHT).filter fun y => isFullRow (b.getD y [])

/-- `Tetris.clear_lines`: delete each completed row (in ascending index
order) and push an empty row on top for each; then, if any row was
cleared, bump the line counter, award `points * level`, and recompute the
level as `lines_cleared // 10 + 1`. -/
def clear_lines (g : Tetris) : Tetris :=
  let lines := linesToClear g.board
  let board' := lines.foldl (fun b y => emptyRow :: b.eraseIdx y) g.board
  let num_lines := lines.length
  if 0 < num_lines then
    let lc := g.lines_cleared + num_lines
    { g with
      board := board'
      lines_cleared := lc
      score := g.score + pointsTable num_lines * g.level
      level := lc / 10 + 1 }
  else { g with board := board' }

/-- The value of the call expression `self.clear_lines()`: the updated
state together with the Python return value, where `some n` models a
`return n` statement and `none` models Python's `None`.  The body of
`clear_lines` contains no return statement, so every call evaluates to
`None`. -/
def clear_lines_call (g : Tetris) : Tetris × Option Nat := (clear_lines g, none)

/-- `Tetris.lock_piece`: write the current piece's in-bounds cells into
the board, clear completed lines, and spawn the next piece. -/
def lock_piece (sh : List PieceKind) (g : Tetris) : Tetris :=
  let board' := g.current_piece.foldl
    (fun b c =>
      let x := g.current_x + c.1
      let y := g.current_y + c.2
      if 0 ≤ y ∧ y < (BOARD_HEIGHT : Int) ∧ 0 ≤ x ∧ x < (BOARD_WIDTH : Int) then
        b.set y.toNat ((b.getD y.toNat []).set x.toNat (some g.current_type))
      else b)
    g.board
  spawn_piece sh (clear_lines { g with board := board' })

/-- The `while self.move(0, 1)` loop of `Tetris.hard_drop`, returning the
final state and the count of successful steps.  The Python loop is
syntactically unbounded; the explicit fuel is justified by the
termination bound proved for claim C10 (every catalog cell has a
non-negative row offset, so at most `BOARD_HEIGHT + |y|` steps succeed). -/
def moveLoop : Nat → Tetris → Tetris × Nat
  | 0, g => (g, 0)
  | fuel + 1, g =>
    let (g1, moved) := move 0 1 g
    if moved then
      let (g2, d) := moveLoop fuel g1
      (g2, d + 1)
    else (g, 0)

/-- `Tetris.hard_drop`: fall as far as possible, award 2 points per cell
traversed, then lock. -/
def hard_drop (sh : List PieceKind) (g : Tetris) : Tetris :=
  let (g1, drop_distance) := moveLoop (BOARD_HEIGHT + g.current_y.natAbs) g
  lock_piece sh { g1 with score := g1.score + drop_distance * 2 }

/-- The `while` loop of `Tetris.get_ghost_y` over the local `ghost_y`
variable; same fuel justification as `moveLoop`. -/
def ghostLoop (g : Tetris) : Nat → Int → Int
  | 0, ghost_y => ghost_y
  | fuel + 1, ghost_y =>
    if is_valid_position g.board g.current_x (ghost_y + 1) g.current_piece then
      ghostLoop g fuel (ghost_y + 1)
    else ghost_y

/-- `Tetris.get_ghost_y`: the landing row of the current piece.  The
method assigns no field of `self`; the returned pair makes that explicit
in the embedding (state out, value out). -/
def get_ghost_y (g : Tetris) : Tetris × Int :=
  (g, ghostLoop g (BOARD_HEIGHT + g.current_y.natAbs) g.current_y)

/-- Proof-side recursive form of `linesToClear`: the ascending indices of
the complete rows of `b`, offset by `n`. -/
def fullIndicesFrom (n : Nat) : Board → List Nat
  | [] => []
  | r :: t => if isFullRow r then n :: fullIndicesFrom (n + 1) t else fullIndicesFrom (n + 1) t

/-- The kind the next call to `spawn_piece` will make current: the queued
`next_type` when present, otherwise the first bag draw. -/
def spawnKind (sh : List PieceKind) (g : Tetris) : PieceKind :=
  match g.next_type with
  | some t => t
  | none => (get_next_piece_type sh g).1

/-- Successive draws from the randomizer: each call feeds the state of the
previous one; `sh` is the shuffle outcome used at a refill. -/
def drawSeq (sh : List PieceKind) (g : Tetris) : Nat → List PieceKind
  | 0 => []
  | n + 1 =>
    let (p, g1) := get_next_piece_type sh g
    p :: drawSeq sh g1 n

/-- The catalog key list `list(TETROMINOES.keys())` in insertion order. -/
def allKinds : List PieceKind :=
  [PieceKind.I, PieceKind.O, PieceKind.T, PieceKind.S, PieceKind.Z, PieceKind.J, PieceKind.L]

/-- A freshly started game with an O piece at the spawn position on an
empty board (used to instantiate the universally quantified theorems). -/
def baseState : Tetris where
  board := List.replicate BOARD_HEIGHT emptyRow
  score := 0
  level := 1
  lines_cleared := 0
  game_over := false
  paused := false
  bag := [PieceKind.S, PieceKind.Z]
  current_piece := TETROMINOES PieceKind.O 0
  current_type := PieceKind.O
  current_rotation := 0
  current_x := 3
  current_y := 0
  next_type := some PieceKind.I

def fullRowS : Row := List.replicate BOARD_WIDTH (some PieceKind.S)

/-- An incomplete marker row: only column 0 occupied. -/
def markRow : Row := emptyRow.set 0 (some PieceKind.T)

/-- A board whose rows 5 and 7 are the only complete rows, with a marker
in row 6 to observe the compaction order. -/
def boardRows57 : Board :=
  (((List.replicate BOARD_HEIGHT emptyRow).set 5 fullRowS).set 7 fullRowS).set 6 markRow

def clearState57 : Tetris := { baseState with board := boardRows57 }

/-- A board blocking the spawn cell (4, 0) of an O piece. -/
def spawnCexBoard : Board :=
  (List.replicate BOARD_HEIGHT emptyRow).set 0 (emptyRow.set 4 (some PieceKind.O))

/-- A state about to spawn the queued O piece into a blocked position. -/
def spawnCexState : Tetris :=
  { baseState with
    board := spawnCexBoard
    current_type := PieceKind.T
    current_piece := TETROMINOES PieceKind.T 0
    next_type := some PieceKind.O
    bag := [PieceKind.I] }

/-- Four complete rows at the bottom, marker above them, at level 3. -/
def scoreState : Tetris :=
  { baseState with
    board := (((((List.replicate BOARD_HEIGHT emptyRow).set 16 fullRowS).set 17
      fullRowS).set 18 fullRowS).set 19 fullRowS).set 15 markRow
    level := 3
    lines_cleared := 25
    score := 1000 }

def bagState : Tetris := { baseState with bag := [] }

/-- A T piece at the spawn position on an empty board; all four in-place
rotations are valid there. -/
def rotState : Tetris :=
  { baseState with
    current_type := PieceKind.T
    current_piece := TETROMINOES PieceKind.T 0 }

/-- Claim C3: `is_valid_position` returns true iff every absolute cell
`(x + px, y + py)` satisfies `0 <= x + px < 10` and `y + py < 20` and,
whenever `y + py >= 0`, the board cell there is empty.  In particular
placements with negative row are accepted for any column in range, and
any placement overlapping an occupied cell or out of horizontal or bottom
bounds is rejected. -/
theorem is_valid_position_iff (b : Board) (x y : Int) (p : List (Int × Int)) :
    is_valid_position b x y p = true ↔
      ∀ c ∈ p, 0 ≤ x + c.1 ∧ x + c.1 < 10 ∧ y + c.2 < 20 ∧
        (0 ≤ y + c.2 → (b.getD (y + c.2).toNat []).getD (x + c.1).toNat none = none) := by
  simp only [is_valid_position, List.all_eq_true, BOARD_WIDTH, BOARD_HEIGHT]
  refine forall_congr' fun c => forall_congr' fun _ => ?_
  split_ifs with h1 h2 h3
  · simp only [Bool.false_eq_true, false_iff]
    intro hcon
    rcases hcon with ⟨ha, hb, _⟩
    rcases h1 with h1 | h1 <;> omega
  · simp only [Bool.false_eq_true, false_iff]
    intro hcon
    rcases hcon with ⟨_, _, hc, _⟩
    omega
  · simp only [Bool.false_eq_true, false_iff]
    intro hcon
    rcases hcon with ⟨_, _, _, hd⟩
    rcases h3 with ⟨hy, hocc⟩
    rw [hd hy] at hocc
    simp at hocc
  · simp only [true_iff]
    push_neg at h1 h3
    refine ⟨h1.1, ?_, ?_, fun hy => ?_⟩
    · have := h1.2
      omega
    · omega
    · have := h3 hy
      cases hcell : (b.getD (y + c.2).toNat []).getD (x + c.1).toNat none with
      | none => rfl
      | some k => rw [hcell] at this; simp at this

lemma range'_filter_full (b : Board) : ∀ n : Nat,
    (List.range' n b.length).filter (fun y => isFullRow (b.getD (y - n) []))
      = fullIndicesFrom n b := by
  induction b with
  | nil => intro n; simp [fullIndicesFrom]
  | cons r t ih =>
    intro n
    rw [List.length_cons, List.range'_succ, List.filter_cons]
    have hcongr : ∀ y ∈ List.range' (n + 1) t.length,
        (isFullRow ((r :: t).getD (y - n) [])) = (isFullRow (t.getD (y - (n + 1)) [])) := by
      intro y hy
      have hy' : n + 1 ≤ y := (List.mem_range'_1.mp hy).1
      have hstep : y - n = (y - (n + 1)) + 1 := by omega
      rw [hstep, List.getD_cons_succ]
    rw [List.filter_congr hcongr, ih (n + 1)]
    have hself : n - n = 0 := Nat.sub_self n
    rw [hself, List.getD_cons_zero, fullIndicesFrom]

lemma linesToClear_eq (b : Board) (h : b.length = BOARD_HEIGHT) :
    linesToClear b = fullIndicesFrom 0 b := by
  unfold linesToClear
  rw [← h, List.range_eq_range']
  have := range'_filter_full b 0
  simpa using this

lemma eraseIdx_append_length (a : Board) (r : Row) (t : Board) :
    (a ++ r :: t).eraseIdx a.length = a ++ t := by
  induction a with
  | nil => simp
  | cons x a ih => simp [List.eraseIdx, ih]

lemma foldClear : ∀ (t : Board) (j : Nat) (s : Board),
    (fullIndicesFrom (j + s.length) t).foldl (fun b y => emptyRow :: b.eraseIdx y)
        (List.replicate j emptyRow ++ s ++ t)
      = List.replicate (j + t.countP isFullRow) emptyRow ++ s
          ++ t.filter (fun r => !(isFullRow r)) := by
  intro t
  induction t with
  | nil => intro j s; simp [fullIndicesFrom]
  | cons r t ih =>
    intro j s
    by_cases hr : isFullRow r
    · rw [fullIndicesFrom]
      simp only [hr, if_true, List.foldl_cons]
      have hlen : j + s.length = (List.replicate j emptyRow ++ s).length := by simp
      have herase : (List.replicate j emptyRow ++ s ++ (r :: t)).eraseIdx (j + s.length)
          = List.replicate j emptyRow ++ s ++ t := by
        rw [hlen, eraseIdx_append_length]
      rw [herase]
      have hcons : emptyRow :: (List.replicate j emptyRow ++ s ++ t)
          = List.replicate (j + 1) emptyRow ++ s ++ t := by
        rw [List.replicate_succ]
        simp
      rw [hcons]
      have hidx : j + s.length + 1 = (j + 1) + s.length := by omega
      rw [hidx, ih (j + 1) s]
      have hcount : (j + 1) + t.countP isFullRow = j + (r :: t).countP isFullRow := by
        rw [List.countP_cons]
        simp [hr]
        omega
      rw [hcount]
      have hfilt : (r :: t).filter (fun r => !(isFullRow r)) = t.filter (fun r => !(isFullRow r)) := by
        simp [List.filter_cons, hr]
      rw [hfilt]
    · rw [fullIndicesFrom]
      have hr' : isFullRow r = false := by simpa using hr
      simp only [hr', if_false, Bool.false_eq_true]
      have hboard : List.replicate j emptyRow ++ s ++ (r :: t)
          = List.replicate j emptyRow ++ (s ++ [r]) ++ t := by
        simp
      rw [hboard]
      have hidx : j + s.length + 1 = j + (s ++ [r]).length := by
        simp
        omega
      rw [hidx, ih j (s ++ [r])]
      have hcount : j + t.countP isFullRow = j + (r :: t).countP isFullRow := by
        rw [List.countP_cons]
        simp [hr']
      rw [hcount]
      have hfilt : (r :: t).filter (fun r => !(isFullRow r)) = r :: t.filter (fun r => !(isFullRow r)) := by
        simp [List.filter_cons, hr']
      rw [hfilt]
      simp

lemma fullIndicesFrom_length : ∀ (b : Board) (n : Nat),
    (fullIndicesFrom n b).length = b.countP isFullRow := by
  intro b
  induction b with
  | nil => intro n; simp [fullIndicesFrom]
  | cons r t ih =>
    intro n
    rw [fullIndicesFrom, List.countP_cons]
    by_cases hr : isFullRow r <;> simp [hr, ih (n + 1)]

lemma clear_lines_board (g : Tetris) :
    (clear_lines g).board
      = (linesToClear g.board).foldl (fun b y => emptyRow :: b.eraseIdx y) g.board := by
  simp only [clear_lines]
  split <;> rfl

lemma clear_lines_count (g : Tetris) :
    (clear_lines g).lines_cleared = g.lines_cleared + (linesToClear g.board).length := by
  simp only [clear_lines]
  split
  · rfl
  · rename_i hn
    have h0 : (linesToClear g.board).length = 0 := by omega
    simp [h0]

/-- Claim C1, amended: on a board of the invariant height, `clear_lines`
removes exactly the complete rows, all simultaneously: the resulting
board is the same number of fresh empty rows on top followed by the
incomplete rows in their original relative order; the count of removed
rows is the length of `linesToClear` (the internal `num_lines`), and it
is recorded by adding it to `lines_cleared` — the method itself has no
return statement, so the call returns Python's `None`, not the count. -/
theorem clear_lines_spec (g : Tetris) (h : g.board.length = BOARD_HEIGHT) :
    (clear_lines g).board
        = List.replicate (g.board.countP isFullRow) emptyRow
            ++ g.board.filter (fun r => !(isFullRow r))
      ∧ (linesToClear g.board).length = g.board.countP isFullRow
      ∧ (clear_lines g).lines_cleared = g.lines_cleared + (linesToClear g.board).length
      ∧ (clear_lines_call g).2 = none := by
  have hL := linesToClear_eq g.board h
  have hF := foldClear g.board 0 []
  simp only [List.length_nil, Nat.add_zero, Nat.zero_add, List.replicate_zero,
    List.nil_append, List.append_nil] at hF
  refine ⟨?_, ?_, clear_lines_count g, rfl⟩
  · rw [clear_lines_board, hL]
    exact hF
  · rw [hL, fullIndicesFrom_length]

/-- Claim C1 counterexample: on the concrete board whose only complete
rows are 5 and 7, `clear_lines` does remove exactly those rows (two
fresh empty rows on top, the marker row keeping its relative position)
and records the count 2 in `lines_cleared`, but the call itself
evaluates to Python's `None` — the method has no return statement — so
"returns the count of rows removed" ("it returns 2") fails on the code. -/
theorem clear_lines_returns_counterexample :
    (clear_lines_call clearState57).2 = none
      ∧ ¬ (clear_lines_call clearState57).2 = some 2
      ∧ linesToClear clearState57.board = [5, 7]
      ∧ (clear_lines_call clearState57).1.lines_cleared = 2
      ∧ (clear_lines_call clearState57).1.board
          = (List.replicate BOARD_HEIGHT emptyRow).set 7 markRow := by
  decide

lemma rotateKicks_eq_find (g : Tetris) (nr : Nat) (np : List (Int × Int)) (ks : List (Int × Int)) :
    rotateKicks g nr np ks =
      match ks.find? (fun k =>
          is_valid_position g.board (g.current_x + k.1) (g.current_y + k.2) np) with
      | some k =>
        ({ g with
            current_x := g.current_x + k.1
            current_y := g.current_y + k.2
            current_rotation := nr
            current_piece := np }, true)
      | none => (g, false) := by
  induction ks with
  | nil => simp [rotateKicks, List.find?]
  | cons k rest ih =>
    by_cases hk : is_valid_position g.board (g.current_x + k.1) (g.current_y + k.2) np = true
    · simp [rotateKicks, List.find?, hk]
    · have hk' : is_valid_position g.board (g.current_x + k.1) (g.current_y + k.2) np = false := by
        simpa using hk
      simp only [rotateKicks, hk', Bool.false_eq_true, if_false, List.find?, ih]

/-- Claim C4: `rotate` computes the next rotation index `(r + 1) % 4` and
its cell layout, then tries, in order, no offset followed by the kicks
`(-1,0), (1,0), (-2,0), (2,0), (0,-1)`.  The first offset at which the
new layout is valid is committed (rotation index and board offset both
updated) with result true; if none is valid the state is returned
unchanged with result false. -/
theorem rotate_first_valid_offset (g : Tetris) :
    rotate g =
      (let new_rotation := (g.current_rotation + 1) % 4
       let new_piece := TETROMINOES g.current_type new_rotation
       match ((0, 0) :: kicks).find? (fun k =>
           is_valid_position g.board (g.current_x + k.1) (g.current_y + k.2) new_piece) with
       | some k =>
         ({ g with
             current_x := g.current_x + k.1
             current_y := g.current_y + k.2
             current_rotation := new_rotation
             current_piece := new_piece }, true)
       | none => (g, false)) := by
  by_cases h0 : is_valid_position g.board g.current_x g.current_y
      (TETROMINOES g.current_type ((g.current_rotation + 1) % 4)) = true
  · simp [rotate, h0, List.find?]
  · have h0' : is_valid_position g.board (g.current_x + 0) (g.current_y + 0)
        (TETROMINOES g.current_type ((g.current_rotation + 1) % 4)) = false := by
      simpa using h0
    simp only [rotate, List.find?, h0', Bool.false_eq_true, if_false,
      rotateKicks_eq_find]
    simp only [h0'] at *
    have h0'' : is_valid_position g.board g.current_x g.current_y
        (TETROMINOES g.current_type ((g.current_rotation + 1) % 4)) = false := by
      simpa using h0
    simp [h0'']

/-- Claim C2 counterexample: a state whose queued O piece cannot spawn
(cell (4, 0) is occupied).  `spawn_piece` does set the game-over flag and
leaves every board cell intact, but it nevertheless creates the new
active piece: the current kind and layout change to the freshly spawned
O piece, so "no new ActivePiece is created" fails on the code. -/
theorem spawn_invalid_counterexample :
    is_valid_position spawnCexState.board ((BOARD_WIDTH : Int) / 2 - 2) 0
        (TETROMINOES PieceKind.O 0) = false
      ∧ (spawn_piece [] spawnCexState).game_over = true
      ∧ (spawn_piece [] spawnCexState).board = spawnCexState.board
      ∧ ¬ ((spawn_piece [] spawnCexState).current_type = spawnCexState.current_type
            ∧ (spawn_piece [] spawnCexState).current_piece = spawnCexState.current_piece) := by
  decide

/-- Claim C2, amended: whenever the spawn position (rotation 0, at
`(W / 2 - 2, 0)`) of the incoming kind is invalid against the playfield,
`spawn_piece` sets the game-over flag and modifies no cell of the
playfield; however the active-piece fields are still assigned to the new
piece (kind, rotation 0, catalog layout, spawn offset) — the piece is
created but never locked into the board. -/
theorem spawn_invalid_amended (sh : List PieceKind) (g : Tetris)
    (h : is_valid_position g.board ((BOARD_WIDTH : Int) / 2 - 2) 0
        (TETROMINOES (spawnKind sh g) 0) = false) :
    (spawn_piece sh g).game_over = true
      ∧ (spawn_piece sh g).board = g.board
      ∧ (spawn_piece sh g).current_type = spawnKind sh g
      ∧ (spawn_piece sh g).current_piece = TETROMINOES (spawnKind sh g) 0
      ∧ (spawn_piece sh g).current_rotation = 0
      ∧ (spawn_piece sh g).current_x = (BOARD_WIDTH : Int) / 2 - 2
      ∧ (spawn_piece sh g).current_y = 0 := by
  cases hnt : g.next_type with
  | some t =>
    simp only [spawnKind, hnt] at h ⊢
    simp only [spawn_piece, hnt, get_next_piece_type]
    simp [h]
  | none =>
    simp only [spawnKind, hnt, get_next_piece_type] at h ⊢
    simp only [spawn_piece, hnt, get_next_piece_type]
    simp at h
    simp [h]

/-- Witness for the amended claim C2 at the concrete blocked state. -/
theorem spawn_invalid_amended_witness :
    (spawn_piece [] spawnCexState).game_over = true
      ∧ (spawn_piece [] spawnCexState).board = spawnCexState.board
      ∧ (spawn_piece [] spawnCexState).current_type = spawnKind [] spawnCexState
      ∧ (spawn_piece [] spawnCexState).current_piece
          = TETROMINOES (spawnKind [] spawnCexState) 0
      ∧ (spawn_piece [] spawnCexState).current_rotation = 0
      ∧ (spawn_piece [] spawnCexState).current_x = (BOARD_WIDTH : Int) / 2 - 2
      ∧ (spawn_piece [] spawnCexState).current_y = 0 :=
  spawn_invalid_amended [] spawnCexState (by decide)

lemma valid_row_lt (b : Board) (x v : Int) (p : List (Int × Int)) (c : Int × Int)
    (hc : c ∈ p) (hv : is_valid_position b x v p = true) :
    v + c.2 < (BOARD_HEIGHT : Int) := by
  rw [is_valid_position, List.all_eq_true] at hv
  have hcell := hv c hc
  simp only at hcell
  split_ifs at hcell with h1 h2 h3
  all_goals try simp at hcell
  all_goals omega

lemma moveLoop_eq : ∀ (d fuel : Nat) (g : Tetris), d < fuel →
    (∀ j : Nat, j < d →
      is_valid_position g.board g.current_x (g.current_y + (j : Int) + 1) g.current_piece = true) →
    is_valid_position g.board g.current_x (g.current_y + (d : Int) + 1) g.current_piece = false →
    moveLoop fuel g = ({ g with current_y := g.current_y + (d : Int) }, d) := by
  intro d
  induction d with
  | zero =>
    intro fuel g hf hval hstop
    cases fuel with
    | zero => omega
    | succ f =>
      simp only [Nat.cast_zero, add_zero] at hstop ⊢
      simp only [moveLoop, move, add_zero, hstop, Bool.false_eq_true, if_false]
  | succ k ih =>
    intro fuel g hf hval hstop
    cases fuel with
    | zero => omega
    | succ f =>
      have h0 : is_valid_position g.board g.current_x (g.current_y + 1) g.current_piece = true := by
        have := hval 0 (by omega)
        simpa using this
      simp only [moveLoop, move, add_zero, h0, if_true]
      have hval' : ∀ j : Nat, j < k →
          is_valid_position g.board g.current_x ((g.current_y + 1) + (j : Int) + 1)
            g.current_piece = true := by
        intro j hj
        have := hval (j + 1) (by omega)
        have harith : g.current_y + ((j + 1 : Nat) : Int) + 1 = g.current_y + 1 + (j : Int) + 1 := by
          push_cast
          ring
        rw [harith] at this
        exact this
      have hstop' : is_valid_position g.board g.current_x ((g.current_y + 1) + (k : Int) + 1)
          g.current_piece = false := by
        have harith : g.current_y + ((k + 1 : Nat) : Int) + 1 = g.current_y + 1 + (k : Int) + 1 := by
          push_cast
          ring
        rw [harith] at hstop
        exact hstop
      rw [ih f { g with current_y := g.current_y + 1 } (by omega) hval' hstop']
      have harith : g.current_y + 1 + (k : Int) = g.current_y + ((k + 1 : Nat) : Int) := by
        push_cast
        ring
      simp [harith]

lemma ghostLoop_eq : ∀ (d fuel : Nat) (g : Tetris) (gy : Int), d < fuel →
    (∀ j : Nat, j < d →
      is_valid_position g.board g.current_x (gy + (j : Int) + 1) g.current_piece = true) →
    is_valid_position g.board g.current_x (gy + (d : Int) + 1) g.current_piece = false →
    ghostLoop g fuel gy = gy + (d : Int) := by
  intro d
  induction d with
  | zero =>
    intro fuel g gy hf hval hstop
    cases fuel with
    | zero => omega
    | succ f =>
      simp only [Nat.cast_zero, add_zero] at hstop ⊢
      simp only [ghostLoop, hstop, Bool.false_eq_true, if_false]
  | succ k ih =>
    intro fuel g gy hf hval hstop
    cases fuel with
    | zero => omega
    | succ f =>
      have h0 : is_valid_position g.board g.current_x (gy + 1) g.current_piece = true := by
        have := hval 0 (by omega)
        simpa using this
      simp only [ghostLoop, h0, if_true]
      have hval' : ∀ j : Nat, j < k →
          is_valid_position g.board g.current_x ((gy + 1) + (j : Int) + 1)
            g.current_piece = true := by
        intro j hj
        have := hval (j + 1) (by omega)
        have harith : gy + ((j + 1 : Nat) : Int) + 1 = gy + 1 + (j : Int) + 1 := by
          push_cast
          ring
        rw [harith] at this
        exact this
      have hstop' : is_valid_position g.board g.current_x ((gy + 1) + (k : Int) + 1)
          g.current_piece = false := by
        have harith : gy + ((k + 1 : Nat) : Int) + 1 = gy + 1 + (k : Int) + 1 := by
          push_cast
          ring
        rw [harith] at hstop
        exact hstop
      rw [ih f g (gy + 1) (by omega) hval' hstop']
      push_cast
      ring

lemma drop_steps_lt_fuel (g : Tetris) (d : Nat)
    (hp : ∃ c ∈ g.current_piece, 0 ≤ c.2)
    (hval : ∀ j : Nat, j < d →
      is_valid_position g.board g.current_x (g.current_y + (j : Int) + 1) g.current_piece = true) :
    d < BOARD_HEIGHT + g.current_y.natAbs := by
  obtain ⟨c, hc, hcy⟩ := hp
  have hbh : (BOARD_HEIGHT : Int) = 20 := by norm_num [BOARD_HEIGHT]
  rw [BOARD_HEIGHT]
  rcases Nat.eq_zero_or_pos d with hd | hd
  · omega
  · have hv := hval (d - 1) (by omega)
    have hrow := valid_row_lt g.board g.current_x (g.current_y + ((d - 1 : Nat) : Int) + 1)
      g.current_piece c hc hv
    rw [hbh] at hrow
    have hcast : ((d - 1 : Nat) : Int) = (d : Int) - 1 := by omega
    rw [hcast] at hrow
    omega

/-- Claim C5: `hard_drop` applies `move(0, 1)` until it fails; if `d` is
the number of successful steps (valid at every intermediate row, invalid
one past the last), it adds exactly `2 * d` to the score and then locks
the piece from the final position. -/
theorem hard_drop_spec (sh : List PieceKind) (g : Tetris) (d : Nat)
    (hp : ∃ c ∈ g.current_piece, 0 ≤ c.2)
    (hval : ∀ j : Nat, j < d →
      is_valid_position g.board g.current_x (g.current_y + (j : Int) + 1) g.current_piece = true)
    (hstop : is_valid_position g.board g.current_x (g.current_y + (d : Int) + 1)
        g.current_piece = false) :
    hard_drop sh g
      = lock_piece sh
          { g with current_y := g.current_y + (d : Int), score := g.score + d * 2 } := by
  have hd := drop_steps_lt_fuel g d hp hval
  simp only [hard_drop]
  rw [moveLoop_eq d (BOARD_HEIGHT + g.current_y.natAbs) g hd hval hstop]

/-- Claim C9: `get_ghost_y` returns the lowest row reachable by moving
the active piece straight down from `current_y` (valid at every step on
the way, invalid one row further), and it leaves the whole game state
unchanged. -/
theorem get_ghost_y_spec (g : Tetris) (d : Nat)
    (hp : ∃ c ∈ g.current_piece, 0 ≤ c.2)
    (hval : ∀ j : Nat, j < d →
      is_valid_position g.board g.current_x (g.current_y + (j : Int) + 1) g.current_piece = true)
    (hstop : is_valid_position g.board g.current_x (g.current_y + (d : Int) + 1)
        g.current_piece = false) :
    (get_ghost_y g).1 = g ∧ (get_ghost_y g).2 = g.current_y + (d : Int) := by
  refine ⟨rfl, ?_⟩
  have hd := drop_steps_lt_fuel g d hp hval
  simp only [get_ghost_y]
  exact ghostLoop_eq d (BOARD_HEIGHT + g.current_y.natAbs) g g.current_y hd hval hstop

lemma moveLoop_snd_valid : ∀ (fuel : Nat) (g : Tetris), 1 ≤ (moveLoop fuel g).2 →
    is_valid_position g.board g.current_x (g.current_y + ((moveLoop fuel g).2 : Int))
      g.current_piece = true := by
  intro fuel
  induction fuel with
  | zero =>
    intro g h
    simp [moveLoop] at h
  | succ f ih =>
    intro g h
    by_cases hc : is_valid_position g.board g.current_x (g.current_y + 1) g.current_piece = true
    · cases hml : moveLoop f { g with current_y := g.current_y + 1 } with
      | mk g2 dd =>
        have hred : moveLoop (f + 1) g = (g2, dd + 1) := by
          simp [moveLoop, move, hc, hml]
        rw [hred] at h ⊢
        by_cases h1 : 1 ≤ dd
        · have hih := ih { g with current_y := g.current_y + 1 }
            (by rw [hml]; exact h1)
          rw [hml] at hih
          simp only at hih
          have harith : g.current_y + ((dd + 1 : Nat) : Int) = g.current_y + 1 + (dd : Int) := by
            push_cast
            ring
          rw [harith]
          simpa using hih
        · have hd0 : dd = 0 := by omega
          subst hd0
          have harith : g.current_y + ((0 + 1 : Nat) : Int) = g.current_y + 1 := by
            push_cast
            ring
          rw [harith]
          simpa using hc
    · have hc' : is_valid_position g.board g.current_x (g.current_y + 1)
          g.current_piece = false := by simpa using hc
      have hred : moveLoop (f + 1) g = (g, 0) := by
        simp [moveLoop, move, hc']
      rw [hred] at h
      simp at h

lemma ghostLoop_le : ∀ (fuel : Nat) (g : Tetris) (gy : Int),
    ghostLoop g fuel gy = gy ∨
      is_valid_position g.board g.current_x (ghostLoop g fuel gy) g.current_piece = true := by
  intro fuel
  induction fuel with
  | zero =>
    intro g gy
    left
    rfl
  | succ f ih =>
    intro g gy
    by_cases hc : is_valid_position g.board g.current_x (gy + 1) g.current_piece = true
    · simp only [ghostLoop, hc, if_true]
      rcases ih g (gy + 1) with he | hv
      · right
        rw [he]
        exact hc
      · right
        exact hv
    · left
      have hc' : is_valid_position g.board g.current_x (gy + 1) g.current_piece = false := by
        simpa using hc
      simp [ghostLoop, hc']

/-- Claim C10: the downward loops of `hard_drop` and `get_ghost_y`
terminate.  Every cell of the piece catalog has a non-negative row
offset; `is_valid_position` is false as soon as some cell reaches
`y + py >= BOARD_HEIGHT`; and therefore, from a non-negative starting
row, the number of successful downward steps of the drop loop (and the
descent of the ghost row) is bounded by the board height. -/
theorem drop_termination_spec :
    (∀ k : PieceKind, ∀ r : Nat, r < 4 → ∀ c ∈ TETROMINOES k r, 0 ≤ c.2)
      ∧ (∀ (b : Board) (x y : Int) (p : List (Int × Int)),
          (∃ c ∈ p, (BOARD_HEIGHT : Int) ≤ y + c.2) → is_valid_position b x y p = false)
      ∧ (∀ g : Tetris, (∃ c ∈ g.current_piece, 0 ≤ c.2) → 0 ≤ g.current_y →
          (moveLoop (BOARD_HEIGHT + g.current_y.natAbs) g).2 ≤ BOARD_HEIGHT
            ∧ ghostLoop g (BOARD_HEIGHT + g.current_y.natAbs) g.current_y
                ≤ g.current_y + (BOARD_HEIGHT : Int)) := by
  refine ⟨by decide, ?_, ?_⟩
  · intro b x y p hex
    obtain ⟨c, hc, hcy⟩ := hex
    cases hvv : is_valid_position b x y p
    · rfl
    · exfalso
      have := valid_row_lt b x y p c hc hvv
      omega
  · intro g hp hy0
    obtain ⟨c, hc, hcy⟩ := hp
    constructor
    · by_cases h1 : 1 ≤ (moveLoop (BOARD_HEIGHT + g.current_y.natAbs) g).2
      · have hv := moveLoop_snd_valid (BOARD_HEIGHT + g.current_y.natAbs) g h1
        have hrow := valid_row_lt g.board g.current_x
          (g.current_y + ((moveLoop (BOARD_HEIGHT + g.current_y.natAbs) g).2 : Int))
          g.current_piece c hc hv
        omega
      · omega
    · rcases ghostLoop_le (BOARD_HEIGHT + g.current_y.natAbs) g g.current_y with he | hv
      · rw [he]
        omega
      · have hrow := valid_row_lt g.board g.current_x
          (ghostLoop g (BOARD_HEIGHT + g.current_y.natAbs) g.current_y)
          g.current_piece c hc hv
        omega

lemma pointsTable_spec (n : Nat) (h : 1 ≤ n) :
    pointsTable n
      = if n = 1 then 100 else if n = 2 then 300 else if n = 3 then 500 else 800 := by
  rcases n with _ | _ | _ | _ | _ | n
  · omega
  · decide
  · decide
  · decide
  · decide
  · have h1 : n + 5 ≠ 1 := by omega
    have h2 : n + 5 ≠ 2 := by omega
    have h3 : n + 5 ≠ 3 := by omega
    simp only [h1, h2, h3, if_false]
    rfl

/-- Claim C6: whenever at least one line is completed, `clear_lines` adds
exactly 100, 300, 500 or 800 points for 1, 2, 3 or 4 lines (any larger
count falls into the 800 tier), multiplied by the level current at the
time of the clear, and afterwards the level equals
`totalLinesCleared // 10 + 1`. -/
theorem clear_lines_scoring (g : Tetris) (h : 1 ≤ (linesToClear g.board).length) :
    (clear_lines g).score
        = g.score
            + (if (linesToClear g.board).length = 1 then 100
               else if (linesToClear g.board).length = 2 then 300
               else if (linesToClear g.board).length = 3 then 500
               else 800) * g.level
      ∧ (clear_lines g).lines_cleared = g.lines_cleared + (linesToClear g.board).length
      ∧ (clear_lines g).level
          = (g.lines_cleared + (linesToClear g.board).length) / 10 + 1 := by
  have hpos : 0 < (linesToClear g.board).length := h
  simp only [clear_lines]
  rw [if_pos hpos]
  refine ⟨?_, rfl, rfl⟩
  rw [pointsTable_spec _ h]

lemma getLastD_cons_reverse (l : List PieceKind) (d : PieceKind) (h : l ≠ []) :
    l.getLastD d :: l.dropLast.reverse = l.reverse := by
  conv_rhs => rw [← List.dropLast_append_getLast h]
  rw [List.reverse_append]
  simp [List.getLastD_eq_getLast?, List.getLast?_eq_getLast l h]

lemma drawSeq_of_bag : ∀ (n : Nat) (sh : List PieceKind) (g : Tetris),
    g.bag.length = n → g.bag ≠ [] → drawSeq sh g n = g.bag.reverse := by
  intro n
  induction n with
  | zero =>
    intro sh g hlen hne
    exact absurd (List.length_eq_zero.mp hlen) hne
  | succ m ih =>
    intro sh g hlen hne
    have hbe : g.bag.isEmpty = false := by
      cases hb : g.bag with
      | nil => exact absurd hb hne
      | cons a t => rfl
    simp only [drawSeq, get_next_piece_type, hbe, Bool.false_eq_true, if_false]
    by_cases hdrop : g.bag.dropLast = []
    · have hm : m = 0 := by
        have hl := List.length_dropLast g.bag
        rw [hdrop] at hl
        simp at hl
        omega
      subst hm
      obtain ⟨a, ha⟩ : ∃ a, g.bag = [a] := by
        cases hb : g.bag with
        | nil => exact absurd hb hne
        | cons a t =>
          refine ⟨a, ?_⟩
          have ht : t = [] := by
            rw [hb] at hlen
            simpa using hlen
          rw [ht]
      rw [ha]
      simp [drawSeq]
    · have hlen' : ({ g with bag := g.bag.dropLast } : Tetris).bag.length = m := by
        have := List.length_dropLast g.bag
        simp only []
        omega
      have hih := ih sh { g with bag := g.bag.dropLast } hlen' (by simpa using hdrop)
      rw [hih]
      show g.bag.getLastD PieceKind.I :: g.bag.dropLast.reverse = g.bag.reverse
      exact getLastD_cons_reverse g.bag PieceKind.I hne

/-- Claim C7: starting at any refill boundary (empty bag) and for any
outcome `sh` of the shuffle (a permutation of all 7 kinds), the 7
consecutive draws from the randomizer yield each of the 7 kinds exactly
once. -/
theorem bag_window_spec (sh : List PieceKind) (g : Tetris) (hg : g.bag = [])
    (hperm : sh.Perm allKinds) :
    ∀ k : PieceKind, (drawSeq sh g 7).count k = 1 := by
  intro k
  have hlen : sh.length = 7 := by
    have := hperm.length_eq
    simpa [allKinds] using this
  have hne : sh ≠ [] := by
    intro hnil
    rw [hnil] at hlen
    simp at hlen
  have hbe : g.bag.isEmpty = true := by simp [hg]
  have hstep : drawSeq sh g 7
      = sh.getLastD PieceKind.I :: drawSeq sh { g with bag := sh.dropLast } 6 := by
    show drawSeq sh g (Nat.succ 6) = _
    rw [drawSeq]
    simp only [get_next_piece_type, hbe, if_true]
  rw [hstep]
  have hd6 : ({ g with bag := sh.dropLast } : Tetris).bag.length = 6 := by
    have := List.length_dropLast sh
    simp only []
    omega
  have hdlen : sh.dropLast.length = 6 := by
    have := List.length_dropLast sh
    omega
  have hdne : ({ g with bag := sh.dropLast } : Tetris).bag ≠ [] := by
    simp only []
    intro hnil
    rw [hnil] at hdlen
    simp at hdlen
  rw [drawSeq_of_bag 6 sh _ hd6 hdne]
  show (sh.getLastD PieceKind.I :: sh.dropLast.reverse).count k = 1
  rw [getLastD_cons_reverse sh PieceKind.I hne]
  rw [List.count_reverse, hperm.count_eq]
  cases k <;> rfl

lemma rotate_in_place (g : Tetris) (ρ : Nat) (hρ : (g.current_rotation + 1) % 4 = ρ)
    (hv : is_valid_position g.board g.current_x g.current_y
        (TETROMINOES g.current_type ρ) = true) :
    rotate g
      = ({ g with current_rotation := ρ, current_piece := TETROMINOES g.current_type ρ },
          true) := by
  subst hρ
  simp [rotate, hv]

/-- Claim C8: every rotation state in the catalog has exactly 4 cells
inside the 4x4 local frame, and from any state whose piece matches its
catalog entry, four `rotate` calls whose in-place positions are all valid
return the piece to its original rotation index and cell layout. -/
theorem rotation_cycle_spec :
    (∀ k : PieceKind, ∀ r : Nat, r < 4 →
        (TETROMINOES k r).length = 4
          ∧ ∀ c ∈ TETROMINOES k r, 0 ≤ c.1 ∧ c.1 < 4 ∧ 0 ≤ c.2 ∧ c.2 < 4)
      ∧ (∀ g : Tetris, g.current_rotation < 4 →
          g.current_piece = TETROMINOES g.current_type g.current_rotation →
          (∀ i : Nat, i < 4 →
            is_valid_position g.board g.current_x g.current_y
              (TETROMINOES g.current_type ((g.current_rotation + i + 1) % 4)) = true) →
          (rotate (rotate (rotate (rotate g).1).1).1).1.current_rotation = g.current_rotation
            ∧ (rotate (rotate (rotate (rotate g).1).1).1).1.current_piece
                = g.current_piece) := by
  refine ⟨by decide, ?_⟩
  intro g h0 hp hv
  have hv0 : is_valid_position g.board g.current_x g.current_y
      (TETROMINOES g.current_type ((g.current_rotation + 1) % 4)) = true := hv 0 (by omega)
  have hv1 : is_valid_position g.board g.current_x g.current_y
      (TETROMINOES g.current_type ((g.current_rotation + 2) % 4)) = true := hv 1 (by omega)
  have hv2 : is_valid_position g.board g.current_x g.current_y
      (TETROMINOES g.current_type ((g.current_rotation + 3) % 4)) = true := hv 2 (by omega)
  have e4 : (g.current_rotation + 3 + 1) % 4 = g.current_rotation := by omega
  have hv3 : is_valid_position g.board g.current_x g.current_y
      (TETROMINOES g.current_type g.current_rotation) = true := by
    have := hv 3 (by omega)
    rw [e4] at this
    exact this
  have t1 := rotate_in_place g ((g.current_rotation + 1) % 4) rfl hv0
  have t2 := rotate_in_place
    { g with current_rotation := (g.current_rotation + 1) % 4,
             current_piece := TETROMINOES g.current_type ((g.current_rotation + 1) % 4) }
    ((g.current_rotation + 2) % 4)
    (by show ((g.current_rotation + 1) % 4 + 1) % 4 = (g.current_rotation + 2) % 4; omega) hv1
  have t3 := rotate_in_place
    { g with current_rotation := (g.current_rotation + 2) % 4,
             current_piece := TETROMINOES g.current_type ((g.current_rotation + 2) % 4) }
    ((g.current_rotation + 3) % 4)
    (by show ((g.current_rotation + 2) % 4 + 1) % 4 = (g.current_rotation + 3) % 4; omega) hv2
  have t4 := rotate_in_place
    { g with current_rotation := (g.current_rotation + 3) % 4,
             current_piece := TETROMINOES g.current_type ((g.current_rotation + 3) % 4) }
    g.current_rotation
    (by show ((g.current_rotation + 3) % 4 + 1) % 4 = g.current_rotation; omega) hv3
  have u1 : (rotate g).1
      = { g with current_rotation := (g.current_rotation + 1) % 4,
                 current_piece := TETROMINOES g.current_type ((g.current_rotation + 1) % 4) } := by
    rw [t1]
  have u2 : (rotate (rotate g).1).1
      = { g with current_rotation := (g.current_rotation + 2) % 4,
                 current_piece := TETROMINOES g.current_type ((g.current_rotation + 2) % 4) } := by
    rw [u1, t2]
  have u3 : (rotate (rotate (rotate g).1).1).1
      = { g with current_rotation := (g.current_rotation + 3) % 4,
                 current_piece := TETROMINOES g.current_type ((g.current_rotation + 3) % 4) } := by
    rw [u2, t3]
  have u4 : (rotate (rotate (rotate (rotate g).1).1).1).1
      = { g with current_rotation := g.current_rotation,
                 current_piece := TETROMINOES g.current_type g.current_rotation } := by
    rw [u3, t4]
  rw [u4]
  exact ⟨rfl, hp.symm⟩

/-- Witness for claim C1: the board whose only complete rows are 5 and 7
satisfies the height hypothesis; two rows are removed, two empty rows
appear on top, and the marker row keeps its relative position. -/
theorem clear_lines_spec_witness :
    clearState57.board.length = BOARD_HEIGHT
      ∧ ((clear_lines clearState57).board
            = List.replicate (clearState57.board.countP isFullRow) emptyRow
                ++ clearState57.board.filter (fun r => !(isFullRow r))
          ∧ (linesToClear clearState57.board).length = clearState57.board.countP isFullRow
          ∧ (clear_lines clearState57).lines_cleared
              = clearState57.lines_cleared + (linesToClear clearState57.board).length
          ∧ (clear_lines_call clearState57).2 = none)
      ∧ (clear_lines clearState57).lines_cleared = 2
      ∧ (clear_lines clearState57).board
          = (List.replicate BOARD_HEIGHT emptyRow).set 7 markRow :=
  ⟨by decide, clear_lines_spec clearState57 (by decide), by decide, by decide⟩

/-- Witness for claim C5: an O piece at the spawn position of an empty
board drops 18 rows, gaining 36 points, and locks in the bottom two rows
with no lines cleared. -/
theorem hard_drop_spec_witness :
    hard_drop [] baseState
        = lock_piece []
            { baseState with current_y := baseState.current_y + ((18 : Nat) : Int),
                             score := baseState.score + 18 * 2 }
      ∧ (hard_drop [] baseState).score = 36
      ∧ (hard_drop [] baseState).lines_cleared = 0
      ∧ ((hard_drop [] baseState).board.getD 18 []).getD 4 none = some PieceKind.O
      ∧ ((hard_drop [] baseState).board.getD 19 []).getD 4 none = some PieceKind.O :=
  ⟨hard_drop_spec [] baseState 18 (by decide) (by decide) (by decide),
    by decide, by decide, by decide, by decide⟩

/-- Witness for claim C6: clearing 4 lines at level 3 from 25 lines and
1000 points yields 1000 + 800 * 3 = 3400 points and level 3. -/
theorem clear_lines_scoring_witness :
    1 ≤ (linesToClear scoreState.board).length
      ∧ ((clear_lines scoreState).score
            = scoreState.score
                + (if (linesToClear scoreState.board).length = 1 then 100
                   else if (linesToClear scoreState.board).length = 2 then 300
                   else if (linesToClear scoreState.board).length = 3 then 500
                   else 800) * scoreState.level
          ∧ (clear_lines scoreState).lines_cleared
              = scoreState.lines_cleared + (linesToClear scoreState.board).length
          ∧ (clear_lines scoreState).level
              = (scoreState.lines_cleared + (linesToClear scoreState.board).length) / 10 + 1)
      ∧ (clear_lines scoreState).score = 3400
      ∧ (clear_lines scoreState).level = 3 :=
  ⟨by decide, clear_lines_scoring scoreState (by decide), by decide, by decide⟩

/-- Witness for claim C7: a concrete shuffle outcome drawn 7 times from
an empty bag yields each kind exactly once. -/
theorem bag_window_spec_witness :
    ([PieceKind.T, PieceKind.J, PieceKind.L, PieceKind.S, PieceKind.O, PieceKind.I,
        PieceKind.Z].Perm allKinds)
      ∧ ∀ k : PieceKind,
          (drawSeq [PieceKind.T, PieceKind.J, PieceKind.L, PieceKind.S, PieceKind.O,
              PieceKind.I, PieceKind.Z] bagState 7).count k = 1 :=
  ⟨by decide, bag_window_spec _ bagState (by decide) (by decide)⟩

/-- Witness for claim C8: a T piece at the spawn position of an empty
board rotates in place four times back to its original state. -/
theorem rotation_cycle_spec_witness :
    rotState.current_rotation < 4
      ∧ ((rotate (rotate (rotate (rotate rotState).1).1).1).1.current_rotation
            = rotState.current_rotation
          ∧ (rotate (rotate (rotate (rotate rotState).1).1).1).1.current_piece
              = rotState.current_piece) :=
  ⟨by decide, rotation_cycle_spec.2 rotState (by decide) (by decide) (by decide)⟩

/-- Witness for claim C9: the ghost row of the freshly spawned O piece on
an empty board is 18, and the query leaves the state untouched. -/
theorem get_ghost_y_spec_witness :
    (get_ghost_y baseState).1 = baseState
      ∧ (get_ghost_y baseState).2 = baseState.current_y + ((18 : Nat) : Int) :=
  get_ghost_y_spec baseState 18 (by decide) (by decide) (by decide)

/-- Witness for claim C10: at the spawn state the drop loop takes at most
`BOARD_HEIGHT` steps and the ghost row stays within the board height. -/
theorem drop_termination_spec_witness :
    (moveLoop (BOARD_HEIGHT + baseState.current_y.natAbs) baseState).2 ≤ BOARD_HEIGHT
      ∧ ghostLoop baseState (BOARD_HEIGHT + baseState.current_y.natAbs) baseState.current_y
          ≤ baseState.current_y + (BOARD_HEIGHT : Int) :=
  drop_termination_spec.2.2 baseState (by decide) (by decide)
